import Mathlib

/-!
A shallow embedding of the CI-failure triage agent, translated from
`agent.py` and the demo variant `cifixagent-demo-fail/agent.py`.

Python strings are modelled as `List Char`.  `str.strip` is modelled by
`stripWs` over the whitespace code points of `str.isspace`; `str.splitlines`
is modelled by `splitlines`, which treats a CR LF pair as a single boundary,
recognises the usual line-break code points, and produces no final empty
segment, exactly as Python does.  The two `re.search` calls are modelled by
`reSearch`: both patterns are a literal marker followed by a quote, one or
more non-quote characters (the captured group), and a closing quote, so the
leftmost regex match is the leftmost position where `matchFrom` succeeds,
and the captured group runs to the first closing quote.

The filesystem touched by `FilesystemTool` is modelled by `FSState`: the
manifest is threaded separately as text, and `create_placeholder_file`
acts on a finite map from normalised path components to file contents plus
a set of directories.  The working directory (the empty component list)
always exists.  `CIFixAgent.run` is modelled by `runStep`, which returns
the selected remediation action together with the new manifest text and
filesystem; commenting, committing and pushing are external effects with
no bearing on the claims and are not modelled.
-/

set_option maxRecDepth 10000

namespace CIFix

/-- Whitespace code points removed by Python `str.strip` (the code points
for which `str.isspace` holds). -/
def isPySpace (c : Char) : Bool :=
  c == ' ' || c == '\t' || c == '\n' || c == '\r' || c == '\x0b' || c == '\x0c' ||
  c == '\x1c' || c == '\x1d' || c == '\x1e' || c == '\x1f' ||
  c == '\x85' || c == '\xa0' || c == ' ' ||
  c == ' ' || c == ' ' || c == ' ' || c == ' ' || c == ' ' ||
  c == ' ' || c == ' ' || c == ' ' || c == ' ' || c == ' ' ||
  c == ' ' || c == ' ' || c == ' ' || c == ' ' || c == ' ' ||
  c == '　'

/-- Line boundaries recognised by Python `str.splitlines`. -/
def isLineBreak (c : Char) : Bool :=
  c == '\n' || c == '\r' || c == '\x0b' || c == '\x0c' ||
  c == '\x1c' || c == '\x1d' || c == '\x1e' || c == '\x85' ||
  c == ' ' || c == ' '

/-- The single-quote character. -/
def sq : Char := Char.ofNat 39

/-- The double-quote character. -/
def dq : Char := Char.ofNat 34

/-- The character class of the two quote characters accepted by the regexes. -/
def isQuote (c : Char) : Bool := c == sq || c == dq

/-- Python `s.strip()`: drop whitespace from the left, then from the right. -/
def stripWs (s : List Char) : List Char :=
  ((s.dropWhile isPySpace).reverse.dropWhile isPySpace).reverse

/-- Collapse every CR LF pair into a single LF, as a first pass of
`str.splitlines` (Python treats the pair as one boundary). -/
def normNewlines : List Char → List Char
  | [] => []
  | [c] => [c]
  | c :: c2 :: rest =>
    if c = '\r' ∧ c2 = '\n' then '\n' :: normNewlines rest
    else c :: normNewlines (c2 :: rest)

/-- Split at every line-break character (after `normNewlines`), keeping a
final empty segment; `splitlines` then drops that final empty segment. -/
def splitBreaks : List Char → List (List Char)
  | [] => [[]]
  | c :: rest =>
    let ps := splitBreaks rest
    if isLineBreak c then [] :: ps else (c :: ps.headD []) :: ps.tail

/-- Python `s.splitlines()`. -/
def splitlines (s : List Char) : List (List Char) :=
  let parts := splitBreaks (normNewlines s)
  if parts.getLast? = some [] then parts.dropLast else parts

/-- Python substring test `needle in hay`. -/
def containsSub (needle : List Char) : List Char → Bool
  | [] => needle.isEmpty
  | c :: rest => needle.isPrefixOf (c :: rest) || containsSub needle rest

/-- Python `"\n".join`. -/
def joinNL : List (List Char) → List Char
  | [] => []
  | [l] => l
  | l :: ls => l ++ '\n' :: joinNL ls

/-- The keyword list of `make_log_excerpt`, in priority order. -/
def keywords : List (List Char) :=
  ["ModuleNotFoundError".data, "FileNotFoundError".data,
   "No such file or directory".data]

/-- The keyword loop of `make_log_excerpt`: for each keyword in order, the
index of the first line containing it; the first keyword that occurs wins. -/
def firstIdx (ks : List (List Char)) (lines : List (List Char)) : Option Nat :=
  match ks with
  | [] => none
  | k :: ks2 =>
    match lines.findIdx? (fun l => containsSub k l) with
    | some i => some i
    | none => firstIdx ks2 lines

/-- The marker appended by `make_log_excerpt` when the excerpt is cut. -/
def truncationMarker : List Char := "\n... (truncated)".data

/-- `make_log_excerpt(logs, max_lines, max_chars)` from `agent.py`. -/
def make_log_excerpt (logs : List Char) (max_lines max_chars : Nat) : List Char :=
  let lines := splitlines logs
  let idx := firstIdx keywords lines
  let snippet :=
    match idx with
    | none => lines.take max_lines
    | some i => (lines.take (min lines.length (i + 10))).drop (i - 10)
  let text := stripWs (joinNL snippet)
  if max_chars < text.length then text.take max_chars ++ truncationMarker else text

/-- The literal part of the missing-dependency regex. -/
def depMarker : List Char := "No module named ".data

/-- The literal part of the missing-path regex. -/
def pathMarker : List Char := "No such file or directory: ".data

/-- One attempt of the regex at a fixed position: the literal marker, a
quote, a non-empty greedy run of non-quote characters (the group, which
therefore stops at the first closing quote), and a closing quote. -/
def matchFrom (marker s : List Char) : Option (List Char) :=
  if marker.isPrefixOf s then
    match s.drop marker.length with
    | [] => none
    | q :: rest =>
      if isQuote q then
        let tok := rest.takeWhile (fun c => !isQuote c)
        let rest2 := rest.dropWhile (fun c => !isQuote c)
        if tok.isEmpty || rest2.isEmpty then none else some tok
      else none
  else none

/-- `re.search`: the leftmost position where `matchFrom` succeeds. -/
def reSearch (marker : List Char) : List Char → Option (List Char)
  | [] => matchFrom marker []
  | c :: rest =>
    match matchFrom marker (c :: rest) with
    | some t => some t
    | none => reSearch marker rest

/-- `find_missing_dependency(logs)` from `agent.py`. -/
def find_missing_dependency (logs : List Char) : Option (List Char) :=
  (reSearch depMarker logs).map stripWs

/-- `find_missing_file_path(logs)` from `agent.py`. -/
def find_missing_file_path (logs : List Char) : Option (List Char) :=
  (reSearch pathMarker logs).map stripWs

/-- Python truthiness of an `Optional[str]`: `None` and the empty string
are falsy. -/
def truthy : Option (List Char) → Bool
  | none => false
  | some s => !s.isEmpty

/-- The typed diagnosis produced by classification. -/
inductive Diagnosis where
  | missingDependency (name : List Char)
  | missingPath (path : List Char)
  | unknown
deriving DecidableEq

/-- The classification performed by `CIFixAgent.run`: the dependency rule
is consulted first (`if dep:`), then the path rule (`if missing_path:`),
each through Python truthiness. -/
def classify (logs : List Char) : Diagnosis :=
  let dep := find_missing_dependency logs
  if truthy dep then Diagnosis.missingDependency (dep.getD [])
  else
    let mp := find_missing_file_path logs
    if truthy mp then Diagnosis.missingPath (mp.getD []) else Diagnosis.unknown

/-- The list `[l.strip() for l in content.splitlines() if l.strip()]`
from `FilesystemTool.add_dependency`. -/
def linesOf (content : List Char) : List (List Char) :=
  ((splitlines content).map stripWs).filter (fun l => !l.isEmpty)

/-- Python `content.endswith("\n")`. -/
def endsWithNewline (s : List Char) : Bool := s.getLast? == some '\n'

/-- `FilesystemTool.add_dependency`, as a pure function from the manifest
text read from `requirements.txt` to the text written back. -/
def add_dependency (content dependency : List Char) : List Char :=
  let dep := stripWs dependency
  let lines := linesOf content
  if dep ∈ lines then content
  else (if endsWithNewline content then content else content ++ ['\n']) ++ dep ++ ['\n']

/-- Split a path string at every slash. -/
def splitOnSlash : List Char → List (List Char)
  | [] => [[]]
  | c :: rest =>
    let ps := splitOnSlash rest
    if c = '/' then [] :: ps else (c :: ps.headD []) :: ps.tail

/-- The normalised components of a relative path, as `pathlib` produces
them: empty components and single-dot components are discarded. -/
def pathParts (s : List Char) : List (List Char) :=
  (splitOnSlash s).filter (fun comp => !comp.isEmpty && !(comp == ['.']))

/-- The component lists of `p.parent` and all its ancestors, the
directories created by `p.parent.mkdir(parents=True, exist_ok=True)`. -/
def ancestors (parts : List (List Char)) : List (List (List Char)) :=
  (List.range parts.dropLast.length).map (fun k => parts.dropLast.take (k + 1))

/-- The filesystem as `create_placeholder_file` sees it: files keyed by
normalised components, plus the set of directories. -/
structure FSState where
  files : List (List (List Char) × List Char)
  dirs : List (List (List Char))
deriving DecidableEq

/-- Content of the file at the given components, when one exists. -/
def FSState.lookup (fs : FSState) (parts : List (List Char)) : Option (List Char) :=
  (fs.files.find? (fun e => e.1 == parts)).map (fun e => e.2)

/-- Add one directory if it is not already present. -/
def insertDir (ds : List (List (List Char))) (d : List (List Char)) :
    List (List (List Char)) :=
  if d ∈ ds then ds else d :: ds

/-- `p.parent.mkdir(parents=True, exist_ok=True)`. -/
def FSState.mkdirParents (fs : FSState) (parts : List (List Char)) : FSState :=
  FSState.mk fs.files ((ancestors parts).foldl insertDir fs.dirs)

/-- `p.exists()`: a file or a directory at the path; the working directory
(empty components) always exists. -/
def FSState.existsPath (fs : FSState) (parts : List (List Char)) : Bool :=
  parts.isEmpty || (fs.lookup parts).isSome || decide (parts ∈ fs.dirs)

/-- `FilesystemTool.create_placeholder_file`. -/
def create_placeholder_file (fs : FSState) (rel_path : List Char) : FSState :=
  let parts := pathParts rel_path
  let fs1 := fs.mkdirParents parts
  if fs1.existsPath parts then fs1
  else FSState.mk ((parts, []) :: fs1.files) fs1.dirs

/-- The remediation decision of the planner inlined in `CIFixAgent.run`. -/
inductive RemediationAction where
  | proposeOnly (d : Diagnosis)
  | apply (d : Diagnosis)
  | reportUnclassified
deriving DecidableEq

/-- The transition rule of the remediation planner: each diagnosis category
is gated by its own approval flag. -/
def plan (d : Diagnosis) (approved approvedCreateFile : Bool) : RemediationAction :=
  match d with
  | Diagnosis.missingDependency _ =>
    if approved then RemediationAction.apply d else RemediationAction.proposeOnly d
  | Diagnosis.missingPath _ =>
    if approvedCreateFile then RemediationAction.apply d
    else RemediationAction.proposeOnly d
  | Diagnosis.unknown => RemediationAction.reportUnclassified

/-- One invocation of `CIFixAgent.run`, as a pure transition: given the
logs, the two approval flags (`CI_JANITOR_APPROVED`,
`CI_JANITOR_APPROVED_CREATE_FILE`), the manifest text and the filesystem,
it yields the selected action and the resulting manifest and filesystem.
Only an `apply` action mutates anything, through the matching mutator. -/
def runStep (logs : List Char) (approved approvedCreateFile : Bool)
    (manifest : List Char) (fs : FSState) :
    RemediationAction × List Char × FSState :=
  let a := plan (classify logs) approved approvedCreateFile
  match a with
  | RemediationAction.apply (Diagnosis.missingDependency n) =>
    (a, add_dependency manifest n, fs)
  | RemediationAction.apply (Diagnosis.missingPath p) =>
    (a, manifest, create_placeholder_file fs p)
  | _ => (a, manifest, fs)

/-- The qualitative risk label of the Dependency Impact Advisor. -/
inductive Risk where
  | low
  | medium
deriving DecidableEq

/-- The assessment returned by `DependencyImpactAnalyzer.analyze`. -/
structure ImpactAssessment where
  risk : Risk
  note : List Char
deriving DecidableEq

/-- `DependencyImpactAnalyzer.COMMON_TRANSITIVE_LIBS`. -/
def COMMON_TRANSITIVE_LIBS : List (List Char) :=
  ["numpy".data, "pandas".data, "six".data, "setuptools".data, "wheel".data]

/-- The note returned for a name outside the reference set. -/
def noteDirect : List Char := "Appears to be a direct dependency.".data

/-- The note returned for a member of the reference set. -/
def noteTransitive : List Char :=
  ("This package is commonly transitive and may already exist " ++
   "via another dependency. Adding it explicitly may affect " ++
   "the dependency graph.").data

/-- `DependencyImpactAnalyzer.analyze` from the demo variant. -/
def analyze (dependency : List Char) : ImpactAssessment :=
  if dependency ∈ COMMON_TRANSITIVE_LIBS then ImpactAssessment.mk Risk.medium noteTransitive
  else ImpactAssessment.mk Risk.low noteDirect

/-- The diagnosis dictionary of the demo variant's `diagnose`. -/
inductive DemoDiagnosis where
  | missing_dependency (dep : List Char)
  | broken_path
  | unknown
deriving DecidableEq

/-- The response selected by the demo variant's `act`: always a comment,
never a file change. -/
inductive DemoAction where
  | commentMissingDep (dep : List Char) (impact : ImpactAssessment)
  | commentBrokenPath
  | commentUnclassified
deriving DecidableEq

/-- The demo variant's `act`, abstracted over the impact analyzer it was
constructed with (`self.dep_graph.analyze`): the analyzer's output only
decorates the comment of the missing-dependency branch. -/
def demoActWith (assess : List Char → ImpactAssessment) :
    DemoDiagnosis → DemoAction
  | DemoDiagnosis.missing_dependency dep =>
    DemoAction.commentMissingDep dep (assess dep)
  | DemoDiagnosis.broken_path => DemoAction.commentBrokenPath
  | DemoDiagnosis.unknown => DemoAction.commentUnclassified

/-- The demo variant's `act` with its actual analyzer. -/
def demoAct : DemoDiagnosis → DemoAction := demoActWith analyze

/-- The branch of `act` that was selected, forgetting the comment payload. -/
def actionKind : DemoAction → Nat
  | DemoAction.commentMissingDep _ _ => 0
  | DemoAction.commentBrokenPath => 1
  | DemoAction.commentUnclassified => 2

/-! ### Lemmas about whitespace stripping -/

theorem dropWhile_head_false (p : Char → Bool) (l : List Char) (c : Char)
    (h : (l.dropWhile p).head? = some c) : p c = false := by
  induction l with
  | nil => simp at h
  | cons a t ih =>
    by_cases ha : p a = true
    · rw [List.dropWhile_cons_of_pos ha] at h
      exact ih h
    · rw [List.dropWhile_cons_of_neg ha] at h
      simp only [List.head?_cons, Option.some.injEq] at h
      subst h
      exact Bool.eq_false_iff.mpr ha

theorem dropWhile_eq_self_of_head (p : Char → Bool) (l : List Char)
    (h : ∀ c, l.head? = some c → p c = false) : l.dropWhile p = l := by
  cases l with
  | nil => rfl
  | cons a t =>
    have := h a rfl
    rw [List.dropWhile_cons_of_neg (by simp [this])]

theorem exists_append_dropWhile (p : Char → Bool) (l : List Char) :
    ∃ t, l = t ++ l.dropWhile p :=
  ⟨l.takeWhile p, (List.takeWhile_append_dropWhile p l).symm⟩

theorem stripWs_getLast_not_space (s : List Char) (c : Char)
    (h : (stripWs s).getLast? = some c) : isPySpace c = false := by
  unfold stripWs at h
  rw [List.getLast?_reverse] at h
  exact dropWhile_head_false _ _ _ h

theorem stripWs_head_not_space (s : List Char) (c : Char)
    (h : (stripWs s).head? = some c) : isPySpace c = false := by
  obtain ⟨t, ht⟩ := exists_append_dropWhile isPySpace (s.dropWhile isPySpace).reverse
  have hA : s.dropWhile isPySpace = stripWs s ++ t.reverse := by
    have h2 := congrArg List.reverse ht
    rw [List.reverse_reverse, List.reverse_append] at h2
    exact h2
  have hh : (s.dropWhile isPySpace).head? = some c := by
    rw [hA, List.head?_append, h]
    rfl
  exact dropWhile_head_false _ _ _ hh

theorem stripWs_idem (s : List Char) : stripWs (stripWs s) = stripWs s := by
  rcases hs : stripWs s with _ | ⟨a, r⟩
  · rfl
  · have h1 : (stripWs s).dropWhile isPySpace = stripWs s := by
      apply dropWhile_eq_self_of_head
      intro c hc
      exact stripWs_head_not_space s c (by rw [hs] at hc ⊢; exact hc)
    have h2 : (stripWs s).reverse.dropWhile isPySpace = (stripWs s).reverse := by
      apply dropWhile_eq_self_of_head
      intro c hc
      rw [List.head?_reverse] at hc
      exact stripWs_getLast_not_space s c hc
    rw [← hs]
    show (((stripWs s).dropWhile isPySpace).reverse.dropWhile isPySpace).reverse = stripWs s
    rw [h1, h2, List.reverse_reverse]

theorem stripWs_eq_nil_of_space (s : List Char) (h : ∀ c ∈ s, isPySpace c = true) :
    stripWs s = [] := by
  unfold stripWs
  rw [List.dropWhile_eq_nil_iff.mpr (fun c hc => h c hc)]
  rfl

/-! ### Lemmas about `splitlines` -/

theorem splitBreaks_ne_nil (s : List Char) : splitBreaks s ≠ [] := by
  cases s with
  | nil => simp [splitBreaks]
  | cons c rest =>
    by_cases h : isLineBreak c = true <;> simp [splitBreaks, h]

theorem splitBreaks_append_break (b : Char) (hb : isLineBreak b = true) :
    ∀ (u v : List Char), ∃ w, w ≠ [] ∧ splitBreaks (u ++ b :: v) = w ++ splitBreaks v := by
  intro u
  induction u with
  | nil =>
    intro v
    refine ⟨[[]], by simp, ?_⟩
    simp [splitBreaks, hb]
  | cons c u2 ih =>
    intro v
    obtain ⟨w, hw, hsp⟩ := ih v
    by_cases h : isLineBreak c = true
    · exact ⟨[] :: w, by simp, by simp [splitBreaks, h, hsp]⟩
    · rcases w with _ | ⟨l, w2⟩
      · exact absurd rfl hw
      · refine ⟨(c :: l) :: w2, by simp, ?_⟩
        simp only [List.cons_append, splitBreaks, List.append_eq]
        rw [hsp]
        simp [h]

theorem splitBreaks_token (t : List Char) (h : ∀ c ∈ t, isLineBreak c = false) :
    splitBreaks (t ++ ['\n']) = [t, []] := by
  induction t with
  | nil => decide
  | cons c t2 ih =>
    have hc := h c (List.mem_cons_self c t2)
    simp only [List.cons_append, splitBreaks, List.append_eq]
    rw [ih (fun x hx => h x (List.mem_cons_of_mem _ hx))]
    simp [hc]

theorem normNewlines_no_cr (t : List Char) (h : ∀ c ∈ t, c ≠ '\r') :
    normNewlines t = t := by
  induction t with
  | nil => rfl
  | cons c t2 ih =>
    cases t2 with
    | nil => rfl
    | cons c2 t3 =>
      have hc : ¬(c = '\r' ∧ c2 = '\n') := by
        intro hand
        exact h c (List.mem_cons_self c _) hand.1
      simp only [normNewlines, if_neg hc]
      rw [ih (fun x hx => h x (List.mem_cons_of_mem _ hx))]

theorem normNewlines_cons_nl (t : List Char) :
    normNewlines ('\n' :: t) = '\n' :: normNewlines t := by
  cases t with
  | nil => rfl
  | cons c t2 =>
    simp only [normNewlines]
    rw [if_neg (fun h => absurd h.1 (by decide))]

theorem normNewlines_append_nl_aux :
    ∀ (n : Nat) (x t : List Char), x.length ≤ n →
      ∃ u, normNewlines (x ++ '\n' :: t) = u ++ '\n' :: normNewlines t := by
  intro n
  induction n with
  | zero =>
    intro x t hx
    have hx0 : x = [] := List.length_eq_zero.mp (Nat.le_zero.mp hx)
    subst hx0
    exact ⟨[], by rw [List.nil_append, normNewlines_cons_nl]; rfl⟩
  | succ n ih =>
    intro x t hx
    rcases x with _ | ⟨c, x2⟩
    · exact ⟨[], by rw [List.nil_append, normNewlines_cons_nl]; rfl⟩
    · rcases x2 with _ | ⟨c2, x3⟩
      · by_cases hc : c = '\r'
        · subst hc
          refine ⟨[], ?_⟩
          simp only [List.cons_append, List.nil_append, normNewlines]
          simp
        · refine ⟨[c], ?_⟩
          simp only [List.cons_append, List.nil_append, normNewlines]
          rw [if_neg (fun h => hc h.1), normNewlines_cons_nl]
      · by_cases hc : c = '\r' ∧ c2 = '\n'
        · obtain ⟨u, hu⟩ := ih x3 t (by simp only [List.length_cons] at hx; omega)
          obtain ⟨h1, h2⟩ := hc
          subst h1; subst h2
          refine ⟨'\n' :: u, ?_⟩
          simp only [List.cons_append, normNewlines, List.append_eq]
          simp [hu]
        · obtain ⟨u, hu⟩ :=
            ih (c2 :: x3) t (by simp only [List.length_cons] at hx ⊢; omega)
          refine ⟨c :: u, ?_⟩
          simp only [List.cons_append, normNewlines, List.append_eq]
          rw [if_neg hc]
          rw [List.cons_append] at hu
          rw [hu]

theorem normNewlines_append_nl (x t : List Char) :
    ∃ u, normNewlines (x ++ '\n' :: t) = u ++ '\n' :: normNewlines t :=
  normNewlines_append_nl_aux x.length x t Nat.le.refl

theorem splitlines_append_token (v dep : List Char) (_hne : dep ≠ [])
    (hbf : ∀ c ∈ dep, isLineBreak c = false) :
    ∃ w, splitlines (v ++ '\n' :: (dep ++ ['\n'])) = w ++ [dep] := by
  obtain ⟨u, hu⟩ := normNewlines_append_nl v (dep ++ ['\n'])
  have hdep : normNewlines (dep ++ ['\n']) = dep ++ ['\n'] := by
    apply normNewlines_no_cr
    intro c hc
    rcases List.mem_append.mp hc with h1 | h1
    · intro h2
      subst h2
      exact absurd (hbf _ h1) (by decide)
    · simp only [List.mem_singleton] at h1
      subst h1
      decide
  rw [hdep] at hu
  obtain ⟨w1, hw1ne, hw1⟩ := splitBreaks_append_break '\n' (by decide) u (dep ++ ['\n'])
  have hsb : splitBreaks (dep ++ ['\n']) = [dep, []] := splitBreaks_token dep hbf
  simp only [splitlines]
  rw [hu, hw1, hsb]
  have hlast : (w1 ++ [dep, []]).getLast? = some [] := by
    rw [List.getLast?_append]
    rfl
  rw [if_pos hlast]
  refine ⟨w1, ?_⟩
  rw [show w1 ++ [dep, []] = (w1 ++ [dep]) ++ [[]] by simp]
  rw [List.dropLast_concat]

theorem dep_mem_linesOf (v dep : List Char) (hne : dep ≠ [])
    (hbf : ∀ c ∈ dep, isLineBreak c = false) (hfix : stripWs dep = dep) :
    dep ∈ linesOf (v ++ '\n' :: (dep ++ ['\n'])) := by
  obtain ⟨w, hw⟩ := splitlines_append_token v dep hne hbf
  unfold linesOf
  rw [hw, List.map_append, List.filter_append]
  apply List.mem_append_right
  simp [hfix, hne]

/-! ### Lemmas about `add_dependency` -/

theorem add_dependency_of_mem (m d : List Char) (h : stripWs d ∈ linesOf m) :
    add_dependency m d = m := by
  simp only [add_dependency]
  rw [if_pos h]

theorem add_dependency_of_not_mem (m d : List Char) (h : stripWs d ∉ linesOf m) :
    add_dependency m d
      = (if endsWithNewline m then m else m ++ ['\n']) ++ stripWs d ++ ['\n'] := by
  simp only [add_dependency]
  rw [if_neg h]

theorem exists_concat_of_endsWithNewline (m : List Char) (h : endsWithNewline m = true) :
    ∃ v, m = v ++ ['\n'] := by
  unfold endsWithNewline at h
  rw [beq_iff_eq] at h
  exact List.getLast?_eq_some_iff.mp h

theorem add_dependency_not_mem_shape (m d : List Char) (h : stripWs d ∉ linesOf m) :
    ∃ v, add_dependency m d = v ++ '\n' :: (stripWs d ++ ['\n']) := by
  rw [add_dependency_of_not_mem m d h]
  by_cases he : endsWithNewline m = true
  · obtain ⟨v, hv⟩ := exists_concat_of_endsWithNewline m he
    refine ⟨v, ?_⟩
    rw [if_pos he, hv]
    simp
  · refine ⟨m, ?_⟩
    rw [if_neg he]
    simp

theorem linesOf_strip_fixed (m l : List Char) (h : l ∈ linesOf m) : stripWs l = l := by
  unfold linesOf at h
  obtain ⟨hmem, -⟩ := List.mem_filter.mp h
  obtain ⟨x, -, hx⟩ := List.mem_map.mp hmem
  rw [← hx, stripWs_idem]

/-- C3 (amended): `add_dependency` is idempotent for every manifest text
and every dependency name whose whitespace-trimmed form is non-empty and
contains no line-break character; and whenever the name already equals one
of the non-empty trimmed lines of the manifest, the manifest is returned
unchanged. -/
theorem add_dependency_idem :
    (∀ m d, stripWs d ≠ [] → (∀ c ∈ stripWs d, isLineBreak c = false) →
      add_dependency (add_dependency m d) d = add_dependency m d)
    ∧ (∀ m d, d ∈ linesOf m → add_dependency m d = m) := by
  constructor
  · intro m d h1 h2
    by_cases hmem : stripWs d ∈ linesOf m
    · rw [add_dependency_of_mem m d hmem, add_dependency_of_mem m d hmem]
    · obtain ⟨v, hv⟩ := add_dependency_not_mem_shape m d hmem
      apply add_dependency_of_mem
      rw [hv]
      exact dep_mem_linesOf v (stripWs d) h1 h2 (stripWs_idem d)
  · intro m d hd
    apply add_dependency_of_mem
    rw [linesOf_strip_fixed m d hd]
    exact hd

/-- Witness for C3: idempotence at the manifest `"flask\n"` with the name
`"requests"`, and the unchanged case at `"requests\n"`. -/
theorem add_dependency_idem_witness :
    add_dependency (add_dependency ("flask\n".data) ("requests".data)) ("requests".data)
        = add_dependency ("flask\n".data) ("requests".data)
    ∧ add_dependency ("requests\n".data) ("requests".data) = "requests\n".data := by
  constructor
  · exact add_dependency_idem.1 _ _ (by decide) (by decide)
  · exact add_dependency_idem.2 _ _ (by decide)

/-- Counterexample for C3 as stated: with the empty dependency name, one
application turns `"flask\n"` into `"flask\n\n"` and a second application
turns it into `"flask\n\n\n"`, so applying `add_dependency` twice differs
from applying it once. -/
theorem add_dependency_empty_name_not_idem :
    add_dependency (add_dependency ("flask\n".data) []) []
      ≠ add_dependency ("flask\n".data) [] := by decide

/-- C4 (amended): for every manifest and every name whose trimmed form is
non-empty and not already one of the trimmed non-empty manifest lines,
`add_dependency` appends the trimmed name as a new line: the result is the
manifest (newline-terminated if it was not already) followed by the name
and a single newline, the result ends with a newline, and the character
before that final newline is not itself a newline; in particular
`"flask\n"` with `"requests"` yields exactly `"flask\nrequests\n"`. -/
theorem add_dependency_appends :
    (∀ m d, stripWs d ∉ linesOf m → stripWs d ≠ [] →
      add_dependency m d
          = (if endsWithNewline m then m else m ++ ['\n']) ++ stripWs d ++ ['\n']
        ∧ (add_dependency m d).getLast? = some '\n'
        ∧ (add_dependency m d).dropLast.getLast? ≠ some '\n')
    ∧ add_dependency ("flask\n".data) ("requests".data) = "flask\nrequests\n".data := by
  constructor
  · intro m d hmem hne
    have h3 := add_dependency_of_not_mem m d hmem
    have hassoc : (if endsWithNewline m then m else m ++ ['\n']) ++ stripWs d ++ ['\n']
        = ((if endsWithNewline m then m else m ++ ['\n']) ++ stripWs d) ++ ['\n'] := by
      rw [List.append_assoc]
    refine ⟨h3, ?_, ?_⟩
    · rw [h3, hassoc, List.getLast?_concat]
    · rw [h3, hassoc, List.dropLast_concat]
      rcases hlast : (stripWs d).getLast? with _ | c
      · exact absurd (List.getLast?_eq_none_iff.mp hlast) hne
      · obtain ⟨ys, hys⟩ := List.getLast?_eq_some_iff.mp hlast
        rw [hys, ← List.append_assoc, List.getLast?_concat]
        intro hcn
        simp only [Option.some.injEq] at hcn
        subst hcn
        exact absurd (stripWs_getLast_not_space d _ hlast) (by decide)
  · decide

/-- Witness for C4: appending `" torch "` to the manifest `"flask"`,
which has no trailing newline, yields `"flask\ntorch\n"`. -/
theorem add_dependency_appends_witness :
    add_dependency ("flask".data) (" torch ".data) = "flask\ntorch\n".data
    ∧ (add_dependency ("flask".data) (" torch ".data)).getLast? = some '\n' := by
  have h := add_dependency_appends.1 ("flask".data) (" torch ".data) (by decide) (by decide)
  constructor
  · rw [h.1]
    decide
  · exact h.2.1

/-- Counterexample for C4 as stated: the empty name is not a trimmed
non-empty line of `"flask\n"`, yet the result `"flask\n\n"` ends with two
newlines, not exactly one. -/
theorem add_dependency_empty_name_trailing :
    add_dependency ("flask\n".data) [] = "flask\n\n".data
    ∧ (add_dependency ("flask\n".data) []).dropLast.getLast? = some '\n' := by decide

/-- C10: the already-present check of `add_dependency` is exact equality on
whitespace-trimmed lines: the manifest is returned unchanged exactly when
the trimmed name equals one of the trimmed non-empty lines; a version-pinned
line `"requests==1.0"` does not count as the name `"requests"`, so the bare
name is still appended, while a line `"  requests  "` does count. -/
theorem add_dependency_exact_match :
    (∀ m d, add_dependency m d = m ↔ stripWs d ∈ linesOf m)
    ∧ add_dependency ("requests==1.0\n".data) ("requests".data)
        = "requests==1.0\nrequests\n".data
    ∧ add_dependency ("  requests  \n".data) ("requests".data) = "  requests  \n".data := by
  refine ⟨?_, by decide, by decide⟩
  intro m d
  constructor
  · intro he
    by_contra hmem
    have h3 := add_dependency_of_not_mem m d hmem
    rw [he] at h3
    have hlen := congrArg List.length h3
    by_cases hcase : endsWithNewline m = true
    · rw [if_pos hcase] at hlen
      simp only [List.length_append, List.length_cons] at hlen
      omega
    · rw [if_neg hcase] at hlen
      simp only [List.length_append, List.length_cons] at hlen
      omega
  · exact add_dependency_of_mem m d

/-- Witness for C10: a manifest line `"six"` with surrounding whitespace in
the name still counts as present. -/
theorem add_dependency_exact_match_witness :
    add_dependency ("six\n".data) (" six ".data) = "six\n".data :=
  (add_dependency_exact_match.1 ("six\n".data) (" six ".data)).mpr (by decide)

/-! ### The excerpt truncation bound -/

theorem trunc_spec (text : List Char) (mc : Nat) :
    (if mc < text.length then text.take mc ++ truncationMarker else text).length
        ≤ mc + truncationMarker.length
    ∧ (mc < (if mc < text.length then text.take mc ++ truncationMarker else text).length →
        ∃ t2, (if mc < text.length then text.take mc ++ truncationMarker else text)
          = t2 ++ truncationMarker) := by
  by_cases h : mc < text.length
  · rw [if_pos h]
    constructor
    · rw [List.length_append, List.length_take]
      omega
    · intro _
      exact ⟨text.take mc, rfl⟩
  · rw [if_neg h]
    constructor
    · omega
    · intro h2
      exact absurd h2 h

/-- C2 (amended): the excerpt returned by `make_log_excerpt` never exceeds
`max_chars` plus the length of the truncation marker (16 characters), and
whenever it is longer than `max_chars` — that is, exactly when the joined
and trimmed window was longer than `max_chars` and was cut — it ends with
the truncation marker. -/
theorem make_log_excerpt_bound :
    ∀ logs max_lines max_chars,
      (make_log_excerpt logs max_lines max_chars).length
          ≤ max_chars + truncationMarker.length
      ∧ (max_chars < (make_log_excerpt logs max_lines max_chars).length →
          ∃ t, make_log_excerpt logs max_lines max_chars = t ++ truncationMarker) := by
  intro logs ml mc
  exact trunc_spec _ mc

/-- Witness for C2: on the logs `"abcdef"` with `max_chars = 3` the excerpt
is longer than `max_chars` and ends with the truncation marker. -/
theorem make_log_excerpt_bound_witness :
    3 < (make_log_excerpt ("abcdef".data) 30 3).length
    ∧ ∃ t, make_log_excerpt ("abcdef".data) 30 3 = t ++ truncationMarker :=
  ⟨by decide, (make_log_excerpt_bound ("abcdef".data) 30 3).2 (by decide)⟩

/-- Counterexample for C2 as stated: on the logs `"abcdef"` with
`max_chars = 3` the returned excerpt is `"abc\n... (truncated)"`, which has
19 characters, strictly more than `max_chars`. -/
theorem make_log_excerpt_exceeds_max_chars :
    make_log_excerpt ("abcdef".data) 30 3 = ("abc".data) ++ truncationMarker
    ∧ 3 < (make_log_excerpt ("abcdef".data) 30 3).length := by decide

/-! ### Lemmas about the regex search -/

theorem isPrefixOf_append_self (a b : List Char) : a.isPrefixOf (a ++ b) = true := by
  induction a with
  | nil => simp
  | cons c t ih => simp [List.isPrefixOf, ih]

theorem matchFrom_decomp (marker T suf : List Char) (q q2 : Char)
    (hq : isQuote q = true) (hq2 : isQuote q2 = true) (hT : T ≠ [])
    (hTq : ∀ c ∈ T, isQuote c = false) :
    matchFrom marker (marker ++ q :: (T ++ q2 :: suf)) = some T := by
  have htw : (T ++ q2 :: suf).takeWhile (fun c => !isQuote c) = T := by
    rw [List.takeWhile_append_of_pos (fun a ha => by simp [hTq a ha])]
    rw [List.takeWhile_cons_of_neg (by simp [hq2])]
    simp
  have hdw : (T ++ q2 :: suf).dropWhile (fun c => !isQuote c) = q2 :: suf := by
    rw [List.dropWhile_append_of_pos (fun a ha => by simp [hTq a ha])]
    exact List.dropWhile_cons_of_neg (by simp [hq2])
  unfold matchFrom
  rw [if_pos (isPrefixOf_append_self marker (q :: (T ++ q2 :: suf)))]
  rw [List.drop_left]
  simp only [htw, hdw, hq, if_true]
  simp [List.isEmpty_eq_false.mpr hT]

theorem reSearch_of_matchFrom (marker t : List Char) :
    ∀ (s : List Char) (i : Nat),
      (∀ j, j < i → matchFrom marker (s.drop j) = none) →
      matchFrom marker (s.drop i) = some t →
      reSearch marker s = some t := by
  intro s
  induction s with
  | nil =>
    intro i _ h2
    rw [List.drop_nil] at h2
    simpa [reSearch] using h2
  | cons c rest ih =>
    intro i h1 h2
    cases i with
    | zero =>
      rw [List.drop_zero] at h2
      simp [reSearch, h2]
    | succ i2 =>
      have h0 : matchFrom marker (c :: rest) = none := by
        have := h1 0 (Nat.succ_pos i2)
        rwa [List.drop_zero] at this
      have hstep : reSearch marker (c :: rest) = reSearch marker rest := by
        simp [reSearch, h0]
      rw [hstep]
      apply ih i2
      · intro j hj
        have := h1 (j + 1) (by omega)
        simpa using this
      · simpa using h2

theorem reSearch_decomp (marker pre T suf : List Char) (q q2 : Char)
    (hq : isQuote q = true) (hq2 : isQuote q2 = true) (hT : T ≠ [])
    (hTq : ∀ c ∈ T, isQuote c = false)
    (hfirst : ∀ j, j < pre.length →
      matchFrom marker ((pre ++ marker ++ q :: (T ++ q2 :: suf)).drop j) = none) :
    reSearch marker (pre ++ marker ++ q :: (T ++ q2 :: suf)) = some T := by
  apply reSearch_of_matchFrom marker T _ pre.length hfirst
  rw [List.append_assoc, List.drop_left]
  exact matchFrom_decomp marker T suf q q2 hq hq2 hT hTq

theorem find_dep_decomp (pre T suf : List Char) (q q2 : Char)
    (hq : isQuote q = true) (hq2 : isQuote q2 = true) (hT : T ≠ [])
    (hTq : ∀ c ∈ T, isQuote c = false)
    (hfirst : ∀ j, j < pre.length →
      matchFrom depMarker ((pre ++ depMarker ++ q :: (T ++ q2 :: suf)).drop j) = none) :
    find_missing_dependency (pre ++ depMarker ++ q :: (T ++ q2 :: suf))
      = some (stripWs T) := by
  unfold find_missing_dependency
  rw [reSearch_decomp depMarker pre T suf q q2 hq hq2 hT hTq hfirst]
  rfl

theorem classify_first_dep_match (pre T suf : List Char) (q q2 : Char)
    (hq : isQuote q = true) (hq2 : isQuote q2 = true) (hT : T ≠ [])
    (hTq : ∀ c ∈ T, isQuote c = false)
    (hfirst : ∀ j, j < pre.length →
      matchFrom depMarker ((pre ++ depMarker ++ q :: (T ++ q2 :: suf)).drop j) = none)
    (hne : stripWs T ≠ []) :
    classify (pre ++ depMarker ++ q :: (T ++ q2 :: suf))
      = Diagnosis.missingDependency (stripWs T) := by
  have hfd := find_dep_decomp pre T suf q q2 hq hq2 hT hTq hfirst
  unfold classify
  rw [hfd]
  simp [truthy, List.isEmpty_eq_false.mpr hne]

/-- C6 (amended): when the first position at which the dependency regex
matches yields the quoted token `T` (quote-free and non-empty, extending
exactly to the first closing quote, after which arbitrary text `suf` may
follow) and `T` is non-empty after whitespace-trimming, classification
returns `MissingDependency` with name `T` stripped of surrounding
whitespace. -/
theorem classify_extracts_token (pre T suf : List Char) (q q2 : Char)
    (hq : isQuote q = true) (hq2 : isQuote q2 = true) (hT : T ≠ [])
    (hTq : ∀ c ∈ T, isQuote c = false)
    (hfirst : ∀ j, j < pre.length →
      matchFrom depMarker ((pre ++ depMarker ++ q :: (T ++ q2 :: suf)).drop j) = none)
    (hne : stripWs T ≠ []) :
    classify (pre ++ depMarker ++ q :: (T ++ q2 :: suf))
      = Diagnosis.missingDependency (stripWs T) :=
  classify_first_dep_match pre T suf q q2 hq hq2 hT hTq hfirst hne

/-- Witness for C6: the log `"No module named 'requests' more"` is
classified as `MissingDependency` with name `"requests"`, and the token
stops at the first closing quote so `" more"` is not part of the name. -/
theorem classify_extracts_token_witness :
    classify (depMarker ++ sq :: (("requests".data) ++ sq :: (" more".data)))
      = Diagnosis.missingDependency ("requests".data) := by
  have h := classify_extracts_token [] ("requests".data) (" more".data) sq sq
    (by decide) (by decide) (by decide) (by decide)
    (fun j hj => absurd hj (Nat.not_lt_zero j)) (by decide)
  rw [show stripWs ("requests".data) = "requests".data from by decide] at h
  simpa using h

/-- Counterexample for C6 as stated: the log
`"No module named ' ' No module named 'x'"` contains the dependency marker
followed by the quoted token `"x"`, yet classification returns `Unknown`
(the first regex match has the all-space token, which trims to empty and
fails the truthiness test), not `MissingDependency`. -/
theorem classify_extracts_token_cex :
    containsSub (depMarker ++ sq :: 'x' :: [sq])
        (depMarker ++ sq :: ' ' :: sq :: ' ' :: (depMarker ++ sq :: 'x' :: [sq])) = true
    ∧ classify (depMarker ++ sq :: ' ' :: sq :: ' ' :: (depMarker ++ sq :: 'x' :: [sq]))
        = Diagnosis.unknown := by decide

/-- C5 (amended): when the first position at which the dependency regex
matches yields a token that is non-empty after trimming, classification
returns `MissingDependency` even when the log also contains the
no-such-file-or-directory marker: the dependency rule is consulted first
and the path rule is never reached. -/
theorem classify_dep_priority (pre T suf : List Char) (q q2 : Char)
    (hq : isQuote q = true) (hq2 : isQuote q2 = true) (hT : T ≠ [])
    (hTq : ∀ c ∈ T, isQuote c = false)
    (hfirst : ∀ j, j < pre.length →
      matchFrom depMarker ((pre ++ depMarker ++ q :: (T ++ q2 :: suf)).drop j) = none)
    (hne : stripWs T ≠ [])
    (_hpath : containsSub pathMarker (pre ++ depMarker ++ q :: (T ++ q2 :: suf)) = true) :
    ∃ name, classify (pre ++ depMarker ++ q :: (T ++ q2 :: suf))
      = Diagnosis.missingDependency name :=
  ⟨stripWs T, classify_first_dep_match pre T suf q q2 hq hq2 hT hTq hfirst hne⟩

/-- Witness for C5: a log with both markers,
`"No module named 'requests' No such file or directory: 'cfg'"`, is
classified as a missing dependency. -/
theorem classify_dep_priority_witness :
    ∃ name, classify (depMarker ++ sq ::
        (("requests".data) ++ sq :: (' ' :: (pathMarker ++ sq :: ("cfg".data) ++ [sq]))))
      = Diagnosis.missingDependency name := by
  have h := classify_dep_priority [] ("requests".data)
    (' ' :: (pathMarker ++ sq :: ("cfg".data) ++ [sq])) sq sq
    (by decide) (by decide) (by decide) (by decide)
    (fun j hj => absurd hj (Nat.not_lt_zero j)) (by decide) (by decide)
  simpa using h

/-- Counterexample for C5 as stated: the log
`"No module named ' ' No module named 'x' No such file or directory: 'p'"`
contains a dependency marker with the non-empty quoted token `"x"` and a
path marker with the quoted path `"p"`, yet classification yields
`MissingPath`, not `MissingDependency`: the first dependency match has the
all-space token, which trims to empty, so the dependency rule is treated
as no match. -/
theorem classify_dep_priority_cex :
    containsSub (depMarker ++ sq :: 'x' :: [sq])
        (depMarker ++ sq :: ' ' :: sq :: ' ' ::
          (depMarker ++ sq :: 'x' :: sq :: ' ' :: (pathMarker ++ sq :: 'p' :: [sq]))) = true
    ∧ containsSub (pathMarker ++ sq :: 'p' :: [sq])
        (depMarker ++ sq :: ' ' :: sq :: ' ' ::
          (depMarker ++ sq :: 'x' :: sq :: ' ' :: (pathMarker ++ sq :: 'p' :: [sq]))) = true
    ∧ classify (depMarker ++ sq :: ' ' :: sq :: ' ' ::
          (depMarker ++ sq :: 'x' :: sq :: ' ' :: (pathMarker ++ sq :: 'p' :: [sq])))
        = Diagnosis.missingPath ['p'] := by decide

theorem classify_of_empty_dep (logs : List Char)
    (hd : find_missing_dependency logs = some []) :
    classify logs
      = (if truthy (find_missing_file_path logs) = true
          then Diagnosis.missingPath ((find_missing_file_path logs).getD [])
          else Diagnosis.unknown) := by
  unfold classify
  rw [hd]
  rfl

theorem find_dep_decomp_empty (pre T suf : List Char) (q q2 : Char)
    (hq : isQuote q = true) (hq2 : isQuote q2 = true) (hT : T ≠ [])
    (hTq : ∀ c ∈ T, isQuote c = false)
    (hfirst : ∀ j, j < pre.length →
      matchFrom depMarker ((pre ++ depMarker ++ q :: (T ++ q2 :: suf)).drop j) = none)
    (hstrip : stripWs T = []) :
    find_missing_dependency (pre ++ depMarker ++ q :: (T ++ q2 :: suf)) = some [] := by
  rw [find_dep_decomp pre T suf q q2 hq hq2 hT hTq hfirst, hstrip]

/-- C7 (amended): when the first dependency-regex match has a quoted token
that is empty after whitespace-trimming, the dependency rule is treated as
no match (the extracted name fails the truthiness test) and the agent falls
through to the path rule: when the path rule's first match yields a path
that is non-empty after trimming the `MissingPath` branch is taken, and
when the path rule produces no usable match the `Unknown` branch is taken. -/
theorem classify_empty_token_fallthrough :
    (∀ pre T suf q q2, isQuote q = true → isQuote q2 = true → T ≠ [] →
      (∀ c ∈ T, isQuote c = false) →
      (∀ j, j < pre.length →
        matchFrom depMarker ((pre ++ depMarker ++ q :: (T ++ q2 :: suf)).drop j) = none) →
      stripWs T = [] →
      truthy (find_missing_dependency (pre ++ depMarker ++ q :: (T ++ q2 :: suf))) = false)
    ∧ (∀ pre T suf q q2, isQuote q = true → isQuote q2 = true → T ≠ [] →
      (∀ c ∈ T, isQuote c = false) →
      (∀ j, j < pre.length →
        matchFrom depMarker ((pre ++ depMarker ++ q :: (T ++ q2 :: suf)).drop j) = none) →
      stripWs T = [] →
      truthy (find_missing_file_path (pre ++ depMarker ++ q :: (T ++ q2 :: suf))) = false →
      classify (pre ++ depMarker ++ q :: (T ++ q2 :: suf)) = Diagnosis.unknown)
    ∧ (∀ pre T suf q q2 pre2 P suf2 r r2, isQuote q = true → isQuote q2 = true → T ≠ [] →
      (∀ c ∈ T, isQuote c = false) →
      (∀ j, j < pre.length →
        matchFrom depMarker ((pre ++ depMarker ++ q :: (T ++ q2 :: suf)).drop j) = none) →
      stripWs T = [] →
      isQuote r = true → isQuote r2 = true → P ≠ [] →
      (∀ c ∈ P, isQuote c = false) →
      pre ++ depMarker ++ q :: (T ++ q2 :: suf)
        = pre2 ++ pathMarker ++ r :: (P ++ r2 :: suf2) →
      (∀ j, j < pre2.length →
        matchFrom pathMarker ((pre2 ++ pathMarker ++ r :: (P ++ r2 :: suf2)).drop j) = none) →
      stripWs P ≠ [] →
      classify (pre ++ depMarker ++ q :: (T ++ q2 :: suf))
        = Diagnosis.missingPath (stripWs P)) := by
  refine ⟨?_, ?_, ?_⟩
  · intro pre T suf q q2 hq hq2 hT hTq hfirst hstrip
    rw [find_dep_decomp_empty pre T suf q q2 hq hq2 hT hTq hfirst hstrip]
    rfl
  · intro pre T suf q q2 hq hq2 hT hTq hfirst hstrip hmp
    rw [classify_of_empty_dep _
      (find_dep_decomp_empty pre T suf q q2 hq hq2 hT hTq hfirst hstrip)]
    rw [hmp]
    simp
  · intro pre T suf q q2 pre2 P suf2 r r2 hq hq2 hT hTq hfirst hstrip hr hr2 hP hPq
      heq hfirst2 hPne
    have hfp : find_missing_file_path (pre ++ depMarker ++ q :: (T ++ q2 :: suf))
        = some (stripWs P) := by
      unfold find_missing_file_path
      rw [heq, reSearch_decomp pathMarker pre2 P suf2 r r2 hr hr2 hP hPq hfirst2]
      rfl
    rw [classify_of_empty_dep _
      (find_dep_decomp_empty pre T suf q q2 hq hq2 hT hTq hfirst hstrip)]
    rw [hfp]
    simp [truthy, List.isEmpty_eq_false.mpr hPne]

/-- Witness for C7: the log
`"No module named ' ' No such file or directory: 'cfg'"` has an all-space
dependency token, falls through to the path rule, and is classified as
`MissingPath "cfg"`. -/
theorem classify_empty_token_fallthrough_witness :
    classify (depMarker ++ sq :: (' ' :: [] ++ sq ::
        (' ' :: (pathMarker ++ sq :: ("cfg".data) ++ [sq]))))
      = Diagnosis.missingPath ("cfg".data) := by
  have h := classify_empty_token_fallthrough.2.2 [] [' ']
    (' ' :: (pathMarker ++ sq :: ("cfg".data) ++ [sq])) sq sq
    (depMarker ++ [sq, ' ', sq, ' ']) ("cfg".data) [] sq sq
    (by decide) (by decide) (by decide) (by decide)
    (fun j hj => absurd hj (Nat.not_lt_zero j)) (by decide)
    (by decide) (by decide) (by decide) (by decide)
    (by decide) (by decide) (by decide)
  rw [show stripWs ("cfg".data) = "cfg".data from by decide] at h
  simpa using h

/-- Counterexample for C7 as stated: the log
`"No module named ' ' No such file or directory: ' '"` has an all-space
dependency token and also contains the path marker with a quoted path (a
single space), yet the agent takes the `Unknown` branch, not the
`MissingPath` branch: the all-space path also trims to empty and fails the
truthiness test. -/
theorem classify_empty_token_fallthrough_cex :
    containsSub (pathMarker ++ sq :: ' ' :: [sq])
        (depMarker ++ sq :: ' ' :: sq :: ' ' :: (pathMarker ++ sq :: ' ' :: [sq])) = true
    ∧ classify (depMarker ++ sq :: ' ' :: sq :: ' ' :: (pathMarker ++ sq :: ' ' :: [sq]))
        = Diagnosis.unknown := by decide

/-! ### Lemmas about the placeholder-file mutator -/

theorem foldl_insertDir_mem (l : List (List (List Char)))
    (ds : List (List (List Char))) (x : List (List Char)) :
    x ∈ l.foldl insertDir ds ↔ x ∈ ds ∨ x ∈ l := by
  induction l generalizing ds with
  | nil => simp
  | cons a l2 ih =>
    rw [List.foldl_cons, ih]
    unfold insertDir
    by_cases h : a ∈ ds
    · rw [if_pos h]
      constructor
      · rintro (hx | hx)
        · exact Or.inl hx
        · exact Or.inr (List.mem_cons_of_mem a hx)
      · rintro (hx | hx)
        · exact Or.inl hx
        · rcases List.mem_cons.mp hx with h1 | h1
          · subst h1
            exact Or.inl h
          · exact Or.inr h1
    · rw [if_neg h]
      constructor
      · rintro (hx | hx)
        · rcases List.mem_cons.mp hx with h1 | h1
          · subst h1
            exact Or.inr (List.mem_cons_self _ _)
          · exact Or.inl h1
        · exact Or.inr (List.mem_cons_of_mem a hx)
      · rintro (hx | hx)
        · exact Or.inl (List.mem_cons_of_mem a hx)
        · rcases List.mem_cons.mp hx with h1 | h1
          · subst h1
            exact Or.inl (List.mem_cons_self _ _)
          · exact Or.inr h1

theorem foldl_insertDir_id (l : List (List (List Char)))
    (ds : List (List (List Char))) (h : ∀ a ∈ l, a ∈ ds) :
    l.foldl insertDir ds = ds := by
  induction l with
  | nil => rfl
  | cons a l2 ih =>
    rw [List.foldl_cons]
    have ha : insertDir ds a = ds := by
      unfold insertDir
      rw [if_pos (h a (List.mem_cons_self a l2))]
    rw [ha]
    exact ih (fun x hx => h x (List.mem_cons_of_mem a hx))

theorem ancestors_length_lt (parts a : List (List Char))
    (h : a ∈ ancestors parts) : a.length < parts.length := by
  unfold ancestors at h
  obtain ⟨k, hk, ha⟩ := List.mem_map.mp h
  rw [List.mem_range] at hk
  rw [← ha, List.length_take, List.length_dropLast]
  rw [List.length_dropLast] at hk
  omega

theorem ancestors_not_self (parts : List (List Char)) : parts ∉ ancestors parts :=
  fun h => absurd (ancestors_length_lt parts parts h) (lt_irrefl _)

theorem mkdirParents_files (fs : FSState) (parts : List (List Char)) :
    (fs.mkdirParents parts).files = fs.files := rfl

theorem mkdirParents_lookup (fs : FSState) (parts q : List (List Char)) :
    (fs.mkdirParents parts).lookup q = fs.lookup q := rfl

theorem mkdirParents_has_ancestors (fs : FSState) (parts : List (List Char)) :
    ∀ a ∈ ancestors parts, a ∈ (fs.mkdirParents parts).dirs := by
  intro a ha
  unfold FSState.mkdirParents
  exact (foldl_insertDir_mem _ _ _).mpr (Or.inr ha)

theorem mkdirParents_eq_self (fs : FSState) (parts : List (List Char))
    (h : ∀ a ∈ ancestors parts, a ∈ fs.dirs) : fs.mkdirParents parts = fs := by
  unfold FSState.mkdirParents
  rw [foldl_insertDir_id _ _ h]

theorem existsPath_mkdirParents (fs : FSState) (parts : List (List Char)) :
    (fs.mkdirParents parts).existsPath parts = fs.existsPath parts := by
  unfold FSState.existsPath
  rw [mkdirParents_lookup]
  have h2 : (parts ∈ (fs.mkdirParents parts).dirs) ↔ parts ∈ fs.dirs := by
    unfold FSState.mkdirParents
    rw [foldl_insertDir_mem]
    constructor
    · rintro (h | h)
      · exact h
      · exact absurd h (ancestors_not_self parts)
    · exact Or.inl
  rw [decide_eq_decide.mpr h2]

theorem lookup_cons_self (files : List (List (List Char) × List Char))
    (dirs : List (List (List Char))) (parts : List (List Char)) :
    (FSState.mk ((parts, []) :: files) dirs).lookup parts = some [] := by
  unfold FSState.lookup
  rw [List.find?_cons_of_pos _ (by simp)]
  rfl

theorem lookup_cons_other (files : List (List (List Char) × List Char))
    (dirs : List (List (List Char))) (parts q : List (List Char)) (h : q ≠ parts) :
    (FSState.mk ((parts, []) :: files) dirs).lookup q
      = (FSState.mk files dirs).lookup q := by
  unfold FSState.lookup
  show Option.map (fun e => e.2) (List.find? (fun e => e.1 == q) ((parts, []) :: files))
    = Option.map (fun e => e.2) (List.find? (fun e => e.1 == q) files)
  rw [@List.find?_cons_of_neg _ (fun e => e.1 == q) (parts, ([] : List Char)) files
    (fun hcontra => h (eq_of_beq hcontra).symm)]

theorem create_placeholder_dirs (fs : FSState) (p : List Char) :
    ∀ a ∈ ancestors (pathParts p), a ∈ (create_placeholder_file fs p).dirs := by
  intro a ha
  unfold create_placeholder_file
  by_cases he : (fs.mkdirParents (pathParts p)).existsPath (pathParts p) = true
  · rw [if_pos he]
    exact mkdirParents_has_ancestors fs (pathParts p) a ha
  · rw [if_neg he]
    exact mkdirParents_has_ancestors fs (pathParts p) a ha

theorem create_placeholder_exists (fs : FSState) (p : List Char) :
    (create_placeholder_file fs p).existsPath (pathParts p) = true := by
  unfold create_placeholder_file
  by_cases he : (fs.mkdirParents (pathParts p)).existsPath (pathParts p) = true
  · rw [if_pos he]
    exact he
  · rw [if_neg he]
    unfold FSState.existsPath
    rw [lookup_cons_self]
    simp

theorem create_placeholder_noop (fs : FSState) (p : List Char)
    (hd : ∀ a ∈ ancestors (pathParts p), a ∈ fs.dirs)
    (he : fs.existsPath (pathParts p) = true) :
    create_placeholder_file fs p = fs := by
  simp only [create_placeholder_file]
  rw [mkdirParents_eq_self fs (pathParts p) hd]
  rw [if_pos he]

/-- C8: `create_placeholder_file` is idempotent and never overwrites: it
creates every missing ancestor directory of the path, it creates an empty
file at the path only when nothing exists there, any file already present
anywhere in the filesystem keeps its exact contents, and a second
application has no further effect. -/
theorem create_placeholder_file_safe :
    (∀ fs p, create_placeholder_file (create_placeholder_file fs p) p
        = create_placeholder_file fs p)
    ∧ (∀ fs p q c, fs.lookup q = some c →
        (create_placeholder_file fs p).lookup q = some c)
    ∧ (∀ fs p, ∀ a ∈ ancestors (pathParts p),
        a ∈ (create_placeholder_file fs p).dirs)
    ∧ (∀ fs p, fs.existsPath (pathParts p) = false →
        (create_placeholder_file fs p).lookup (pathParts p) = some []) := by
  refine ⟨?_, ?_, ?_, ?_⟩
  · intro fs p
    exact create_placeholder_noop (create_placeholder_file fs p) p
      (create_placeholder_dirs fs p) (create_placeholder_exists fs p)
  · intro fs p q c hq
    unfold create_placeholder_file
    by_cases he : (fs.mkdirParents (pathParts p)).existsPath (pathParts p) = true
    · rw [if_pos he]
      exact hq
    · rw [if_neg he]
      have hqp : q ≠ pathParts p := by
        intro hcontra
        subst hcontra
        apply he
        unfold FSState.existsPath
        rw [mkdirParents_lookup, hq]
        simp
      have hstep := lookup_cons_other (fs.mkdirParents (pathParts p)).files
        (fs.mkdirParents (pathParts p)).dirs (pathParts p) q hqp
      exact hstep.trans hq
  · intro fs p
    exact create_placeholder_dirs fs p
  · intro fs p he
    unfold create_placeholder_file
    have he1 : (fs.mkdirParents (pathParts p)).existsPath (pathParts p) = false := by
      rw [existsPath_mkdirParents]
      exact he
    rw [if_neg (by rw [he1]; simp)]
    exact lookup_cons_self _ _ _

/-- Witness for C8: creating `"config/settings.json"` twice in the empty
filesystem equals creating it once; a file `"a.txt"` with contents `"hi"`
is untouched by a second create at the same path; the parent directory
`"config"` is created; and on the empty filesystem the placeholder file is
created empty. -/
theorem create_placeholder_file_safe_witness :
    create_placeholder_file
        (create_placeholder_file (FSState.mk [] []) ("config/settings.json".data))
        ("config/settings.json".data)
      = create_placeholder_file (FSState.mk [] []) ("config/settings.json".data)
    ∧ (create_placeholder_file (FSState.mk [(pathParts ("a.txt".data), "hi".data)] [])
        ("a.txt".data)).lookup (pathParts ("a.txt".data)) = some ("hi".data)
    ∧ ["config".data] ∈ (create_placeholder_file (FSState.mk [] [])
        ("config/settings.json".data)).dirs
    ∧ (create_placeholder_file (FSState.mk [] [])
        ("config/settings.json".data)).lookup
          (pathParts ("config/settings.json".data)) = some [] := by
  refine ⟨create_placeholder_file_safe.1 _ _, ?_, ?_, ?_⟩
  · exact create_placeholder_file_safe.2.1 _ _ _ _ (by decide)
  · exact create_placeholder_file_safe.2.2.1 _ _ _ (by decide)
  · exact create_placeholder_file_safe.2.2.2 _ _ (by decide)

/-! ### Approval gating of the run step -/

/-- C1: one invocation of the run step never mutates the repository without
the matching approval: with both flags unset the manifest and filesystem
are returned unchanged for every log; the planner never selects `Apply`
for a `MissingDependency` diagnosis when the dependency approval is unset
and always selects it when set; and whenever the diagnosis is
`MissingDependency` (resp. `MissingPath`) and its own approval flag is
unset, the manifest and the filesystem are unchanged regardless of the
other flag. -/
theorem approval_gating :
    (∀ logs m fs, (runStep logs false false m fs).2.1 = m
        ∧ (runStep logs false false m fs).2.2 = fs)
    ∧ (∀ n b d2, plan (Diagnosis.missingDependency n) false b
        ≠ RemediationAction.apply d2)
    ∧ (∀ n b, plan (Diagnosis.missingDependency n) true b
        = RemediationAction.apply (Diagnosis.missingDependency n))
    ∧ (∀ logs m fs b n, classify logs = Diagnosis.missingDependency n →
        (runStep logs false b m fs).2.1 = m ∧ (runStep logs false b m fs).2.2 = fs)
    ∧ (∀ logs m fs b p, classify logs = Diagnosis.missingPath p →
        (runStep logs b false m fs).2.1 = m ∧ (runStep logs b false m fs).2.2 = fs) := by
  refine ⟨?_, ?_, ?_, ?_, ?_⟩
  · intro logs m fs
    cases hd : classify logs <;> simp [runStep, plan, hd]
  · intro n b d2
    simp [plan]
  · intro n b
    simp [plan]
  · intro logs m fs b n hd
    simp [runStep, plan, hd]
  · intro logs m fs b p hd
    simp [runStep, plan, hd]

/-- Witness for C1: on a log with a missing dependency and the dependency
approval unset (path approval set), the manifest `"flask\n"` and the empty
filesystem are unchanged. -/
theorem approval_gating_witness :
    classify (depMarker ++ sq :: 'x' :: [sq]) = Diagnosis.missingDependency ['x']
    ∧ (runStep (depMarker ++ sq :: 'x' :: [sq]) false true
        ("flask\n".data) (FSState.mk [] [])).2.1 = "flask\n".data
    ∧ (runStep (depMarker ++ sq :: 'x' :: [sq]) false true
        ("flask\n".data) (FSState.mk [] [])).2.2 = FSState.mk [] [] := by
  refine ⟨by decide, ?_, ?_⟩
  · exact (approval_gating.2.2.2.1 _ _ _ true ['x'] (by decide)).1
  · exact (approval_gating.2.2.2.1 _ _ _ true ['x'] (by decide)).2

/-! ### The Dependency Impact Advisor -/

/-- C9: `analyze` assigns risk `MEDIUM` exactly to the members of the fixed
reference set `COMMON_TRANSITIVE_LIBS` and `LOW` to every other name, and
the analyzer in use never changes which branch of the demo agent's `act`
is selected: the selected action kind is the same under any two analyzers. -/
theorem impact_advisor :
    (∀ n, (analyze n).risk = Risk.medium ↔ n ∈ COMMON_TRANSITIVE_LIBS)
    ∧ (∀ n, (analyze n).risk = Risk.low ↔ n ∉ COMMON_TRANSITIVE_LIBS)
    ∧ (∀ f g d, actionKind (demoActWith f d) = actionKind (demoActWith g d)) := by
  refine ⟨?_, ?_, ?_⟩
  · intro n
    by_cases h : n ∈ COMMON_TRANSITIVE_LIBS <;> simp [analyze, h]
  · intro n
    by_cases h : n ∈ COMMON_TRANSITIVE_LIBS <;> simp [analyze, h]
  · intro f g d
    cases d <;> rfl

/-- Witness for C9: `"numpy"` is in the reference set and gets risk
`MEDIUM`; `"requests"` is not and gets risk `LOW`. -/
theorem impact_advisor_witness :
    (analyze ("numpy".data)).risk = Risk.medium
    ∧ (analyze ("requests".data)).risk = Risk.low := by
  constructor
  · exact (impact_advisor.1 _).mpr (by decide)
  · exact (impact_advisor.2.1 _).mpr (by decide)

end CIFix
